import Mathlib

/-!
Verification of the `personal-web` repository against its specification.

The spec singles out one piece with state-machine structure: the typewriter
phrase cycler implemented by `src/components/TypingEffect.tsx`.  The only
other behavioural boundary is the contact-form API route (a Next.js `POST`
handler validating a JSON body with a zod schema and forwarding it to the
Resend email service).  Both are embedded shallowly below, and the claims
about them are settled as theorems.
-/

namespace TypingEffect

/-- JS `s.slice(0, n)` for a non-negative end index `n`: the first `n`
characters of `s` (all of `s` when `n` exceeds its length).  Used by the
typing branch `currentPhrase.slice(0, prev.length + 1)`. -/
def jsSliceTo (s : String) (n : Nat) : String := ⟨s.data.take n⟩

/-- JS `s.slice(0, -1)`: every character but the last (the empty string stays
empty).  Used by the deleting branch `prev.slice(0, -1)`. -/
def jsDropLast (s : String) : String := ⟨s.data.dropLast⟩

/-- The component state held by the four `useState` hooks of `TypingEffect`
(`currentPhraseIndex`, `currentText`, `isDeleting`, `isPaused`). -/
structure CyclerState where
  currentPhraseIndex : Nat
  currentText : String
  isDeleting : Bool
  isPaused : Bool
deriving DecidableEq, Repr

/-- The state installed at mount: `useState(0)`, `useState('')`,
`useState(false)`, `useState(false)`. -/
def initState : CyclerState := ⟨0, "", false, false⟩

/-- One resolution of the `useEffect` body of `TypingEffect`: either the
synchronous branch that fires when a phrase has just been fully typed or
fully deleted, or the state update performed by the scheduled timer callback
(the pause timeout, or the per-character typing/deleting timeout).  The four
branches appear in source order.  `none` models a thrown `TypeError`: when
`phrases[currentPhraseIndex]` is `undefined` (index out of range, e.g. an
empty `phrases` array) the typing callback evaluates `undefined.slice(...)`
and throws.  JS note: in the deletion-finished branch the source computes
`(prev + 1) % phrases.length`, which is `NaN` when the array is empty; since
indexing an empty array yields `undefined` at every index, modelling that
index with the Lean value of `(i + 1) % 0` is observationally identical. -/
def step (phrases : List String) (s : CyclerState) : Option CyclerState :=
  let currentPhrase? := phrases[s.currentPhraseIndex]?
  if s.isPaused = true then
    -- pause timer fired: setIsPaused(false); setIsDeleting(true)
    some { s with isPaused := false, isDeleting := true }
  else if s.isDeleting = false ∧ currentPhrase? = some s.currentText then
    -- finished typing the phrase (currentText === currentPhrase): setIsPaused(true)
    some { s with isPaused := true }
  else if s.isDeleting = true ∧ s.currentText = "" then
    -- finished deleting: setIsDeleting(false); advance the index mod length
    some { s with isDeleting := false,
                  currentPhraseIndex := (s.currentPhraseIndex + 1) % phrases.length }
  else if s.isDeleting = true then
    -- deleting timer fired: setCurrentText(prev => prev.slice(0, -1))
    some { s with currentText := jsDropLast s.currentText }
  else
    -- typing timer fired: setCurrentText(prev => currentPhrase.slice(0, prev.length + 1))
    match currentPhrase? with
    | some p => some { s with currentText := jsSliceTo p (s.currentText.length + 1) }
    | none => none

/-- `n` successive effect resolutions; `none` as soon as one throws. -/
def stepN (phrases : List String) : Nat → CyclerState → Option CyclerState
  | 0, s => some s
  | n + 1, s => (step phrases s).bind (stepN phrases n)

/-- The states the component can be in, starting from the mount state and
following the effect transitions. -/
inductive Reachable (phrases : List String) : CyclerState → Prop
  | init : Reachable phrases initState
  | next {s s' : CyclerState} : Reachable phrases s → step phrases s = some s' →
      Reachable phrases s'

/-- The data-model invariant of the spec: the active index is in range and
`displayedText` is a prefix of the active phrase. -/
def Inv (phrases : List String) (s : CyclerState) : Prop :=
  s.currentPhraseIndex < phrases.length ∧
  s.currentText.data <+: (phrases.getD s.currentPhraseIndex "").data

section StepLemmas

variable (phrases : List String) (s : CyclerState)

theorem step_paused (h : s.isPaused = true) :
    step phrases s = some { s with isPaused := false, isDeleting := true } := by
  simp [step, h]

theorem step_typing_done (h1 : s.isPaused = false) (h2 : s.isDeleting = false)
    (h3 : phrases[s.currentPhraseIndex]? = some s.currentText) :
    step phrases s = some { s with isPaused := true } := by
  simp [step, h1, h2, h3]

theorem step_deleting_done (h1 : s.isPaused = false) (h2 : s.isDeleting = true)
    (h3 : s.currentText = "") :
    step phrases s =
      some { s with isDeleting := false,
                    currentPhraseIndex := (s.currentPhraseIndex + 1) % phrases.length } := by
  simp [step, h1, h2, h3]

theorem step_deleting_tick (h1 : s.isPaused = false) (h2 : s.isDeleting = true)
    (h3 : s.currentText ≠ "") :
    step phrases s = some { s with currentText := jsDropLast s.currentText } := by
  simp [step, h1, h2, h3]

theorem step_typing_tick {p : String} (h1 : s.isPaused = false) (h2 : s.isDeleting = false)
    (h3 : phrases[s.currentPhraseIndex]? = some p) (h4 : p ≠ s.currentText) :
    step phrases s = some { s with currentText := jsSliceTo p (s.currentText.length + 1) } := by
  simp [step, h1, h2, h3, h4]

theorem step_typing_undefined (h1 : s.isPaused = false) (h2 : s.isDeleting = false)
    (h3 : phrases[s.currentPhraseIndex]? = none) :
    step phrases s = none := by
  simp [step, h1, h2, h3]

end StepLemmas

theorem stepN_succ_back (phrases : List String) (n : Nat) (s : CyclerState) :
    stepN phrases (n + 1) s = (stepN phrases n s).bind (step phrases) := by
  induction n generalizing s with
  | zero => cases h : step phrases s <;> simp [stepN, h]
  | succ n ih =>
      cases h : step phrases s with
      | none => simp [stepN, h]
      | some s' => simp only [stepN, h, Option.bind_some] at ih ⊢; exact ih s'

theorem take_isPre {α : Type} (l : List α) (n : Nat) : l.take n <+: l :=
  ⟨l.drop n, List.take_append_drop n l⟩

theorem nil_isPre {α : Type} (l : List α) : ([] : List α) <+: l := ⟨l, rfl⟩

theorem dropLast_isPre {α : Type} (l : List α) : l.dropLast <+: l := by
  rw [List.dropLast_eq_take]
  exact take_isPre l (l.length - 1)

/-- The data-model invariant is preserved by every effect resolution. -/
theorem inv_step {phrases : List String} {s s' : CyclerState}
    (h : Inv phrases s) (hs : step phrases s = some s') : Inv phrases s' := by
  obtain ⟨hidx, hpre⟩ := h
  by_cases hp : s.isPaused = true
  · rw [step_paused phrases s hp] at hs
    cases hs
    exact ⟨hidx, hpre⟩
  · rw [Bool.not_eq_true] at hp
    by_cases hd : s.isDeleting = true
    · by_cases he : s.currentText = ""
      · rw [step_deleting_done phrases s hp hd he] at hs
        cases hs
        refine ⟨Nat.mod_lt _ (Nat.lt_of_le_of_lt (Nat.zero_le _) hidx), ?_⟩
        simp only [he]
        exact nil_isPre _
      · rw [step_deleting_tick phrases s hp hd he] at hs
        cases hs
        exact ⟨hidx, List.IsPrefix.trans (dropLast_isPre s.currentText.data) hpre⟩
    · rw [Bool.not_eq_true] at hd
      cases hq : phrases[s.currentPhraseIndex]? with
      | none =>
          rw [List.getElem?_eq_none_iff] at hq
          omega
      | some p =>
          have hgetD : phrases.getD s.currentPhraseIndex "" = p := by
            rw [List.getD_eq_getElem?_getD, hq, Option.getD_some]
          by_cases heq : p = s.currentText
          · rw [step_typing_done phrases s hp hd (heq ▸ hq)] at hs
            cases hs
            exact ⟨hidx, hpre⟩
          · rw [step_typing_tick phrases s hp hd hq heq] at hs
            cases hs
            exact ⟨hidx, by rw [hgetD]; exact take_isPre p.data _⟩

/-- Every reachable state of a cycler over a non-empty phrase list satisfies
the data-model invariant. -/
theorem reachable_inv {phrases : List String} (hne : phrases ≠ []) {s : CyclerState}
    (hr : Reachable phrases s) : Inv phrases s := by
  induction hr with
  | init =>
      exact ⟨List.length_pos.mpr hne, nil_isPre _⟩
  | next _ hstep ih => exact inv_step ih hstep

/-- The two Bool flags are never simultaneously true after any effect
resolution: every branch of the effect body leaves at most one of them set. -/
theorem flags_step {phrases : List String} {s s' : CyclerState}
    (hs : step phrases s = some s') :
    ¬(s'.isDeleting = true ∧ s'.isPaused = true) := by
  by_cases hp : s.isPaused = true
  · rw [step_paused phrases s hp] at hs
    cases hs
    simp
  · rw [Bool.not_eq_true] at hp
    by_cases hd : s.isDeleting = true
    · by_cases he : s.currentText = ""
      · rw [step_deleting_done phrases s hp hd he] at hs
        cases hs
        simp
      · rw [step_deleting_tick phrases s hp hd he] at hs
        cases hs
        simp [hd, hp]
    · rw [Bool.not_eq_true] at hd
      cases hq : phrases[s.currentPhraseIndex]? with
      | none =>
          rw [step_typing_undefined phrases s hp hd hq] at hs
          cases hs
      | some p =>
          by_cases heq : p = s.currentText
          · rw [step_typing_done phrases s hp hd (heq ▸ hq)] at hs
            cases hs
            simp [hd]
          · rw [step_typing_tick phrases s hp hd hq heq] at hs
            cases hs
            simp [hd, hp]

/-- C1: for every non-empty phrase list and every reachable state of the
phrase cycler (starting from phase Typing, index 0, empty text), the
displayed text is a prefix of the active phrase `phrases[currentPhraseIndex]`,
and this invariant is preserved by every effect transition (typing tick,
pause transition, deleting tick). -/
theorem displayedText_prefix_invariant (phrases : List String) (s : CyclerState)
    (hne : phrases ≠ []) (hr : Reachable phrases s) :
    s.currentText.data <+: (phrases.getD s.currentPhraseIndex "").data ∧
    ∀ s' : CyclerState, step phrases s = some s' →
      s'.currentText.data <+: (phrases.getD s'.currentPhraseIndex "").data :=
  ⟨(reachable_inv hne hr).2, fun _ hs => (inv_step (reachable_inv hne hr) hs).2⟩

/-- Witness for the prefix invariant at the concrete list `["hi"]` and the
mount state. -/
theorem displayedText_prefix_invariant_witness :
    initState.currentText.data <+: ((["hi"] : List String).getD initState.currentPhraseIndex "").data ∧
    ∀ s' : CyclerState, step ["hi"] initState = some s' →
      s'.currentText.data <+: ((["hi"] : List String).getD s'.currentPhraseIndex "").data :=
  displayedText_prefix_invariant ["hi"] initState (by decide) Reachable.init

/-- C10: in every state reachable from the initial state, the flags
`isDeleting` and `isPaused` are never both true, so every reachable state
falls in exactly one of the three flag classes corresponding to the phases
Typing (both false), Paused (only `isPaused`), Deleting (only `isDeleting`). -/
theorem flags_mutually_exclusive (phrases : List String) (s : CyclerState)
    (hr : Reachable phrases s) :
    ¬(s.isDeleting = true ∧ s.isPaused = true) ∧
    ((s.isDeleting = false ∧ s.isPaused = false) ∨
     (s.isDeleting = false ∧ s.isPaused = true) ∨
     (s.isDeleting = true ∧ s.isPaused = false)) := by
  have h : ¬(s.isDeleting = true ∧ s.isPaused = true) := by
    induction hr with
    | init => simp [initState]
    | next _ hstep _ => exact flags_step hstep
  refine ⟨h, ?_⟩
  cases hd : s.isDeleting <;> cases hp : s.isPaused <;> simp_all

/-- Witness for the flag exclusivity at the concrete list `["hi"]` and the
mount state. -/
theorem flags_mutually_exclusive_witness :
    ¬(initState.isDeleting = true ∧ initState.isPaused = true) ∧
    ((initState.isDeleting = false ∧ initState.isPaused = false) ∨
     (initState.isDeleting = false ∧ initState.isPaused = true) ∨
     (initState.isDeleting = true ∧ initState.isPaused = false)) :=
  flags_mutually_exclusive ["hi"] initState Reachable.init

/-- C2 counterexample: on the empty phrase list the very first effect
resolution from the mount state throws — `phrases[0]` is `undefined`, and
the typing callback evaluates `undefined.slice(0, 1)`, raising a TypeError,
modelled as `none` — rather than being a no-op that leaves the state
unchanged. -/
theorem empty_phrases_first_tick_throws :
    step [] initState = none ∧ step [] initState ≠ some initState := by
  decide

/-- C2 amended: on every non-empty phrase list, the effect resolution never
throws from any reachable state (it always produces a successor state);
the never-throws guarantee does not extend to the empty phrase list. -/
theorem step_never_throws_nonempty (phrases : List String) (s : CyclerState)
    (hne : phrases ≠ []) (hr : Reachable phrases s) :
    (step phrases s).isSome = true := by
  obtain ⟨hidx, -⟩ := reachable_inv hne hr
  by_cases hp : s.isPaused = true
  · rw [step_paused phrases s hp]; rfl
  · rw [Bool.not_eq_true] at hp
    by_cases hd : s.isDeleting = true
    · by_cases he : s.currentText = ""
      · rw [step_deleting_done phrases s hp hd he]; rfl
      · rw [step_deleting_tick phrases s hp hd he]; rfl
    · rw [Bool.not_eq_true] at hd
      cases hq : phrases[s.currentPhraseIndex]? with
      | none => rw [List.getElem?_eq_none_iff] at hq; omega
      | some p =>
          by_cases heq : p = s.currentText
          · rw [step_typing_done phrases s hp hd (heq ▸ hq)]; rfl
          · rw [step_typing_tick phrases s hp hd hq heq]; rfl

/-- Witness for the amended never-throws statement at the concrete list
`["hi"]` and the mount state. -/
theorem step_never_throws_nonempty_witness :
    (step ["hi"] initState).isSome = true :=
  step_never_throws_nonempty ["hi"] initState (by decide) Reachable.init

theorem jsSliceTo_length (p : String) : jsSliceTo p p.length = p := by
  show (⟨p.data.take p.data.length⟩ : String) = p
  rw [List.take_length]

theorem jsSliceTo_zero (p : String) : jsSliceTo p 0 = "" := rfl

theorem typing_tick_at (phrases : List String) (i k : Nat) (p : String)
    (hp : phrases[i]? = some p) (hk : k < p.length) :
    step phrases ⟨i, jsSliceTo p k, false, false⟩ =
      some ⟨i, jsSliceTo p (k + 1), false, false⟩ := by
  have hk' : k < p.data.length := hk
  have hlenk : (jsSliceTo p k).length = k := by
    show (p.data.take k).length = k
    rw [List.length_take]
    omega
  have hne : p ≠ jsSliceTo p k := by
    intro h
    have h2 : p.data.length = (p.data.take k).length :=
      congrArg (fun s : String => s.data.length) h
    rw [List.length_take] at h2
    omega
  rw [step_typing_tick phrases ⟨i, jsSliceTo p k, false, false⟩ rfl rfl hp hne, hlenk]

theorem typing_stepN (phrases : List String) (i : Nat) (p : String)
    (hp : phrases[i]? = some p) :
    ∀ k, k ≤ p.length →
      stepN phrases k ⟨i, "", false, false⟩ = some ⟨i, jsSliceTo p k, false, false⟩ := by
  intro k
  induction k with
  | zero => intro _; rfl
  | succ k ih =>
      intro hk
      rw [stepN_succ_back, ih (Nat.le_of_succ_le hk)]
      exact typing_tick_at phrases i k p hp (Nat.lt_of_succ_le hk)

/-- C4: for every non-empty phrase list, starting in phase Typing with empty
displayed text at active index `i`, each typing tick extends the displayed
text `p.slice(0, k)` to `p.slice(0, k + 1)` — appending exactly the one
character `p[k]` of the active phrase — and after exactly `p.length` ticks
the displayed text equals the full active phrase; the resolution immediately
following the last tick (consuming no further timer delay) sets the paused
flag, so the phase becomes Paused. -/
theorem typing_phase_correct (phrases : List String) (i : Nat) (p : String)
    (hp : phrases[i]? = some p) :
    (∀ k, k < p.length →
        step phrases ⟨i, jsSliceTo p k, false, false⟩ =
          some ⟨i, jsSliceTo p (k + 1), false, false⟩ ∧
        (jsSliceTo p (k + 1)).data = (jsSliceTo p k).data ++ [p.data.getD k ' ']) ∧
    stepN phrases p.length ⟨i, "", false, false⟩ = some ⟨i, p, false, false⟩ ∧
    step phrases ⟨i, p, false, false⟩ = some ⟨i, p, false, true⟩ := by
  refine ⟨fun k hk => ⟨typing_tick_at phrases i k p hp hk, ?_⟩, ?_, ?_⟩
  · have hk' : k < p.data.length := hk
    show p.data.take (k + 1) = p.data.take k ++ [p.data.getD k ' ']
    rw [List.take_succ, List.getElem?_eq_getElem hk', List.getD_eq_getElem?_getD,
        List.getElem?_eq_getElem hk']
    rfl
  · have := typing_stepN phrases i p hp p.length (le_refl _)
    rwa [jsSliceTo_length] at this
  · exact step_typing_done phrases ⟨i, p, false, false⟩ rfl rfl hp

/-- Witness for the typing-phase theorem at the concrete list `["hi"]`,
index 0, phrase `"hi"`. -/
theorem typing_phase_correct_witness :
    (∀ k, k < ("hi" : String).length →
        step ["hi"] ⟨0, jsSliceTo "hi" k, false, false⟩ =
          some ⟨0, jsSliceTo "hi" (k + 1), false, false⟩ ∧
        (jsSliceTo "hi" (k + 1)).data = (jsSliceTo "hi" k).data ++ [("hi" : String).data.getD k ' ']) ∧
    stepN ["hi"] ("hi" : String).length ⟨0, "", false, false⟩ = some ⟨0, "hi", false, false⟩ ∧
    step ["hi"] ⟨0, "hi", false, false⟩ = some ⟨0, "hi", false, true⟩ :=
  typing_phase_correct ["hi"] 0 "hi" rfl

theorem deleting_tick_any (phrases : List String) (i : Nat) (t : String) (ht : t ≠ "") :
    step phrases ⟨i, t, true, false⟩ = some ⟨i, jsDropLast t, true, false⟩ :=
  step_deleting_tick phrases ⟨i, t, true, false⟩ rfl rfl ht

theorem jsSliceTo_ne_empty (p : String) (m : Nat) (hm : m + 1 ≤ p.length) :
    jsSliceTo p (m + 1) ≠ "" := by
  intro h
  have hm' : m + 1 ≤ p.data.length := hm
  have h2 : (p.data.take (m + 1)).length = 0 :=
    congrArg (fun s : String => s.data.length) h
  rcases List.take_eq_nil_iff.mp (List.length_eq_zero.mp h2) with h3 | h3
  · omega
  · rw [h3, List.length_nil] at hm'
    omega

theorem jsDropLast_slice (p : String) (m : Nat) (hm : m + 1 ≤ p.length) :
    jsDropLast (jsSliceTo p (m + 1)) = jsSliceTo p m := by
  have hm' : m + 1 ≤ p.data.length := hm
  show (⟨(p.data.take (m + 1)).dropLast⟩ : String) = ⟨p.data.take m⟩
  rw [List.dropLast_eq_take, List.length_take, List.take_take,
      inf_eq_left.mpr hm', Nat.add_sub_cancel, inf_eq_left.mpr (Nat.le_succ m)]

theorem deleting_stepN (phrases : List String) (i : Nat) (p : String) :
    ∀ m, m ≤ p.length →
      stepN phrases m ⟨i, jsSliceTo p m, true, false⟩ = some ⟨i, "", true, false⟩ := by
  intro m
  induction m with
  | zero => intro _; rfl
  | succ m ih =>
      intro hm
      show (step phrases _).bind (stepN phrases m) = _
      rw [deleting_tick_any phrases i _ (jsSliceTo_ne_empty p m hm), jsDropLast_slice p m hm]
      exact ih (Nat.le_of_succ_le hm)

set_option linter.unusedVariables false in
/-- C5: for every non-empty phrase list, starting in phase Deleting with the
displayed text equal to the full active phrase `p` at index `i`, each
deleting tick removes exactly the last character (`t.slice(0, -1)`), after
`p.length` deleting ticks the displayed text is empty, and the resolution
immediately following (consuming no further timer delay) advances
`currentPhraseIndex` to `(i + 1) % phrases.length` and returns to the
Typing phase. -/
theorem deleting_phase_correct (phrases : List String) (i : Nat) (p : String)
    (hp : phrases[i]? = some p) :
    (∀ t : String, t ≠ "" →
        step phrases ⟨i, t, true, false⟩ = some ⟨i, jsDropLast t, true, false⟩ ∧
        (jsDropLast t).data = t.data.dropLast) ∧
    stepN phrases p.length ⟨i, p, true, false⟩ = some ⟨i, "", true, false⟩ ∧
    step phrases ⟨i, "", true, false⟩ =
      some ⟨(i + 1) % phrases.length, "", false, false⟩ := by
  refine ⟨fun t ht => ⟨deleting_tick_any phrases i t ht, rfl⟩, ?_, ?_⟩
  · have := deleting_stepN phrases i p p.length (le_refl _)
    rwa [jsSliceTo_length] at this
  · exact step_deleting_done phrases ⟨i, "", true, false⟩ rfl rfl rfl

/-- Witness for the deleting-phase theorem at the concrete list `["hi"]`,
index 0, phrase `"hi"`. -/
theorem deleting_phase_correct_witness :
    (∀ t : String, t ≠ "" →
        step ["hi"] ⟨0, t, true, false⟩ = some ⟨0, jsDropLast t, true, false⟩ ∧
        (jsDropLast t).data = t.data.dropLast) ∧
    stepN ["hi"] ("hi" : String).length ⟨0, "hi", true, false⟩ = some ⟨0, "", true, false⟩ ∧
    step ["hi"] ⟨0, "", true, false⟩ =
      some ⟨(0 + 1) % (["hi"] : List String).length, "", false, false⟩ :=
  deleting_phase_correct ["hi"] 0 "hi" rfl

/-- C6: in the Paused phase the cycler performs no text mutation — when the
one-shot pause timer fires, the phase becomes Deleting while the displayed
text and the active index are unchanged from their values on entry to
Paused. -/
theorem paused_phase_correct (phrases : List String) (s : CyclerState)
    (h : s.isPaused = true) :
    step phrases s = some { s with isPaused := false, isDeleting := true } ∧
    ({ s with isPaused := false, isDeleting := true } : CyclerState).currentText =
      s.currentText ∧
    ({ s with isPaused := false, isDeleting := true } : CyclerState).currentPhraseIndex =
      s.currentPhraseIndex :=
  ⟨step_paused phrases s h, rfl, rfl⟩

/-- Witness for the paused-phase theorem at the concrete paused state
reached after fully typing `"hi"`: the pause expiry switches the flags to
Deleting while text and index stay `"hi"` and `0`. -/
theorem paused_phase_correct_witness :
    step ["hi"] ⟨0, "hi", false, true⟩ = some ⟨0, "hi", true, false⟩ ∧
    ("hi" : String) = "hi" ∧ (0 : Nat) = 0 :=
  paused_phase_correct ["hi"] ⟨0, "hi", false, true⟩ rfl

/-- C7: on the one-element phrase list `["hi"]` the cycler still runs the
full Typing, Paused, Deleting, Typing cycle on the same phrase: typing fills
the text in two ticks, the next resolution pauses, the pause timer starts
deleting, two deleting ticks empty the text, the next resolution wraps the
index to `(0 + 1) % 1 = 0` — the mount state exactly — and typing of the
same phrase restarts from the empty string. -/
theorem single_phrase_full_cycle :
    stepN ["hi"] 2 initState = some ⟨0, "hi", false, false⟩ ∧
    stepN ["hi"] 3 initState = some ⟨0, "hi", false, true⟩ ∧
    stepN ["hi"] 4 initState = some ⟨0, "hi", true, false⟩ ∧
    stepN ["hi"] 6 initState = some ⟨0, "", true, false⟩ ∧
    stepN ["hi"] 7 initState = some initState ∧
    stepN ["hi"] 8 initState = some ⟨0, "h", false, false⟩ := by
  decide

/-- The props of the `TypingEffect` component, with the source's default
values for the optional speed and pause props. -/
structure TypingEffectProps where
  phrases : List String
  typingSpeed : Int := 100
  deletingSpeed : Int := 50
  pauseDuration : Int := 2000
deriving DecidableEq

/-- The construction failure postulated by the spec. -/
inductive ConfigError
  | invalidConfig
deriving DecidableEq

set_option linter.unusedVariables false in
/-- Construction of the component (mounting): the source performs no
validation of any prop — it unconditionally installs the four initial hook
states.  The `Except` result type records whether construction can fail at
all; the body has no failure path. -/
def construct (props : TypingEffectProps) : Except ConfigError CyclerState :=
  .ok initState

/-- C3 counterexample: a configuration with `typingSpeed = 0` — a
non-positive interval — is not rejected: construction succeeds with the
ordinary initial state and no `InvalidConfig` failure occurs. -/
theorem zero_interval_not_rejected :
    construct { phrases := ["hi"], typingSpeed := 0 } = .ok initState ∧
    construct { phrases := ["hi"], typingSpeed := 0 } ≠ .error ConfigError.invalidConfig :=
  ⟨rfl, fun h => Except.noConfusion h⟩

/-- C3 amended: construction never fails — every configuration, including
zero or negative intervals, is accepted and yields the initial state;
the component has no construction-time validation (the success half of the
original claim holds, the rejection half does not). -/
theorem construct_always_succeeds (props : TypingEffectProps) :
    construct props = .ok initState := rfl

end TypingEffect

namespace ContactApi

/-- A JSON value as far as the contact schema inspects it: the zod object
schema checks that each field is a string; any other shape fails
validation. -/
inductive JValue where
  | jstr : String → JValue
  | jnum : Int → JValue
  | jbool : Bool → JValue
  | jnull : JValue
deriving DecidableEq

/-- The parsed JSON request body of the contact endpoint: the three fields
the `contactSchema` object inspects, each possibly absent. -/
structure ContactBody where
  name : Option JValue
  email : Option JValue
  message : Option JValue
deriving DecidableEq

/-- The validated data extracted by a successful `safeParse`. -/
structure ContactData where
  name : String
  email : String
  message : String
deriving DecidableEq

/-- zod `z.string().min(lo).max(hi)` applied to one field: the field must be
present, be a string, and have length between the bounds. -/
def zodBoundedString (lo hi : Nat) (v : Option JValue) : Option String :=
  match v with
  | some (JValue.jstr s) =>
      if lo ≤ s.length ∧ s.length ≤ hi then some s else none
  | _ => none

/-- Characters the zod email regex allows anywhere in the local part:
letters, digits, underscore, apostrophe (written via its code point),
plus, hyphen and dot — the case-insensitive regex class of zod v3. -/
def localChar (c : Char) : Bool :=
  c.isAlphanum || c == '_' || c == Char.ofNat 39 || c == '+' || c == '-' || c == '.'

/-- Characters the regex allows as the final character of the local part:
letters, digits, underscore, plus and hyphen — no dot, no apostrophe. -/
def localLastChar (c : Char) : Bool :=
  c.isAlphanum || c == '_' || c == '+' || c == '-'

/-- True when the list contains no two adjacent dots (the negative
lookahead of the regex rejecting consecutive dots). -/
def noDoubleDot : List Char → Bool
  | [] => true
  | [_] => true
  | a :: b :: rest => !(a == '.' && b == '.') && noDoubleDot (b :: rest)

/-- The local part of the address: non-empty, drawn from the allowed
character class, ending in a restricted character, not starting with a dot
and containing no consecutive dots. -/
def localOk (l : List Char) : Bool :=
  match l.getLast? with
  | none => false
  | some c =>
      l.all localChar && localLastChar c && !(l.head? == some '.') && noDoubleDot l

/-- One host label before a dot: a letter or digit followed by letters,
digits or hyphens. -/
def hostLabelOk : List Char → Bool
  | [] => false
  | c :: rest => c.isAlphanum && rest.all (fun d => d.isAlphanum || d == '-')

/-- The final label of the domain: at least two characters, letters only. -/
def tldOk (l : List Char) : Bool :=
  decide (2 ≤ l.length) && l.all Char.isAlpha

/-- The domain part: one or more dot-separated host labels followed by a
letters-only final label of length at least two. -/
def domainOk (l : List Char) : Bool :=
  let parts := l.splitOn '.'
  match parts.getLast? with
  | none => false
  | some tld =>
      decide (1 ≤ parts.dropLast.length) && parts.dropLast.all hostLabelOk && tldOk tld

/-- Model of the third-party zod `z.string().email()` validator (the
anchored, case-insensitive zod v3 email regex, not part of this
repository's sources): exactly one at-sign, an allowed local part before it
and a labelled domain after it.  Because the regex character classes
exclude the at-sign, a matching address contains exactly one, so splitting
on it is faithful. -/
def zodEmailCheck (s : String) : Bool :=
  match s.data.splitOn '@' with
  | [loc, dom] => localOk loc && domainOk dom
  | _ => false

/-- zod `z.string().email()` applied to one field. -/
def zodEmailField (v : Option JValue) : Option String :=
  match v with
  | some (JValue.jstr s) => if zodEmailCheck s = true then some s else none
  | _ => none

/-- The server-side `contactSchema.safeParse` of the route: name a string
of 2 to 50 characters, email a string passing the email validator, message
a string of 10 to 1000 characters; `none` models a failed parse. -/
def contactSchema_safeParse (body : ContactBody) : Option ContactData :=
  match zodBoundedString 2 50 body.name, zodEmailField body.email,
        zodBoundedString 10 1000 body.message with
  | some n, some e, some m => some ⟨n, e, m⟩
  | _, _, _ => none

/-- The JSON response of the route, projected to the status code and the
`success` flag the claims are about. -/
structure ApiResponse where
  status : Nat
  success : Bool
deriving DecidableEq

/-- The result of the awaited third-party `resend.emails.send` call. -/
inductive EmailOutcome where
  | sent
  | failed
deriving DecidableEq

/-- The `POST` route handler applied to an already-parsed JSON body.  The
`emailOutcome` parameter stands for the external Resend call, which the
source wraps in its own try/catch whose catch block only logs the error, so
control reaches the success response on both outcomes.  A request body that
is not valid JSON is rejected by the outer catch (status 500) before the
schema runs and is outside this model, which matches the claims: they
quantify over JSON bodies. -/
def POST (body : ContactBody) (emailOutcome : EmailOutcome) : ApiResponse :=
  match contactSchema_safeParse body with
  | none => { status := 400, success := false }
  | some _ =>
      match emailOutcome with
      | EmailOutcome.sent => { status := 200, success := true }
      | EmailOutcome.failed => { status := 200, success := true }

/-- The validation rule exactly as the spec words it: name a string of 2 to
50 characters, email a valid address, message a string of 10 to 1000
characters. -/
def specValidBody (body : ContactBody) : Prop :=
  ∃ n e m : String,
    body.name = some (JValue.jstr n) ∧ body.email = some (JValue.jstr e) ∧
    body.message = some (JValue.jstr m) ∧ 2 ≤ n.length ∧ n.length ≤ 50 ∧
    zodEmailCheck e = true ∧ 10 ≤ m.length ∧ m.length ≤ 1000

theorem zodBoundedString_some_iff (lo hi : Nat) (v : Option JValue) (s : String) :
    zodBoundedString lo hi v = some s ↔
      v = some (JValue.jstr s) ∧ lo ≤ s.length ∧ s.length ≤ hi := by
  cases v with
  | none => simp [zodBoundedString]
  | some j =>
      cases j with
      | jstr t =>
          simp only [zodBoundedString]
          split_ifs with h
          · simp only [Option.some.injEq, JValue.jstr.injEq]
            constructor
            · rintro rfl
              exact ⟨rfl, h⟩
            · rintro ⟨rfl, -⟩
              rfl
          · simp only [Option.some.injEq, JValue.jstr.injEq]
            constructor
            · rintro ⟨⟩
            · rintro ⟨rfl, h2⟩
              exact absurd h2 h
      | jnum x => simp [zodBoundedString]
      | jbool x => simp [zodBoundedString]
      | jnull => simp [zodBoundedString]

theorem zodEmailField_some_iff (v : Option JValue) (s : String) :
    zodEmailField v = some s ↔
      v = some (JValue.jstr s) ∧ zodEmailCheck s = true := by
  cases v with
  | none => simp [zodEmailField]
  | some j =>
      cases j with
      | jstr t =>
          simp only [zodEmailField]
          split_ifs with h
          · simp only [Option.some.injEq, JValue.jstr.injEq]
            constructor
            · rintro rfl
              exact ⟨rfl, h⟩
            · rintro ⟨rfl, -⟩
              rfl
          · simp only [Option.some.injEq, JValue.jstr.injEq]
            constructor
            · rintro ⟨⟩
            · rintro ⟨rfl, h2⟩
              exact absurd h2 h
      | jnum x => simp [zodEmailField]
      | jbool x => simp [zodEmailField]
      | jnull => simp [zodEmailField]

theorem safeParse_ne_none_iff (body : ContactBody) :
    contactSchema_safeParse body ≠ none ↔ specValidBody body := by
  constructor
  · intro h
    cases h1 : zodBoundedString 2 50 body.name with
    | none => exact absurd (by simp [contactSchema_safeParse, h1]) h
    | some n =>
        cases h2 : zodEmailField body.email with
        | none => exact absurd (by simp [contactSchema_safeParse, h1, h2]) h
        | some e =>
            cases h3 : zodBoundedString 10 1000 body.message with
            | none => exact absurd (by simp [contactSchema_safeParse, h1, h2, h3]) h
            | some m =>
                obtain ⟨hn1, hn2, hn3⟩ := (zodBoundedString_some_iff 2 50 body.name n).mp h1
                obtain ⟨he1, he2⟩ := (zodEmailField_some_iff body.email e).mp h2
                obtain ⟨hm1, hm2, hm3⟩ :=
                  (zodBoundedString_some_iff 10 1000 body.message m).mp h3
                exact ⟨n, e, m, hn1, he1, hm1, hn2, hn3, he2, hm2, hm3⟩
  · rintro ⟨n, e, m, hn1, he1, hm1, hn2, hn3, he2, hm2, hm3⟩
    have h1 : zodBoundedString 2 50 body.name = some n :=
      (zodBoundedString_some_iff 2 50 body.name n).mpr ⟨hn1, hn2, hn3⟩
    have h2 : zodEmailField body.email = some e :=
      (zodEmailField_some_iff body.email e).mpr ⟨he1, he2⟩
    have h3 : zodBoundedString 10 1000 body.message = some m :=
      (zodBoundedString_some_iff 10 1000 body.message m).mpr ⟨hm1, hm2, hm3⟩
    simp [contactSchema_safeParse, h1, h2, h3]

/-- C8: the contact POST endpoint accepts a JSON body — does not return a
400 validation failure — if and only if `name` is a string of 2 to 50
characters, `email` is a string passing the email validator, and `message`
is a string of 10 to 1000 characters; and whenever validation fails the
response is status 400 with `success = false`. -/
theorem contact_post_accepts_iff (body : ContactBody) (o : EmailOutcome) :
    ((POST body o).status ≠ 400 ↔ specValidBody body) ∧
    (contactSchema_safeParse body = none →
      POST body o = { status := 400, success := false }) := by
  constructor
  · rw [← safeParse_ne_none_iff]
    cases hp : contactSchema_safeParse body with
    | none => cases o <;> simp [POST, hp]
    | some d => cases o <;> simp [POST, hp]
  · intro hp
    simp [POST, hp]

/-- Witness for the acceptance theorem: the all-absent body fails
validation and receives status 400 with success false. -/
theorem contact_post_accepts_iff_witness :
    POST ⟨none, none, none⟩ EmailOutcome.sent = { status := 400, success := false } :=
  (contact_post_accepts_iff ⟨none, none, none⟩ EmailOutcome.sent).2 (by decide)

/-- C9: for every request body that passes validation, the handler returns
status 200 with `success = true` even when the third-party email send
fails: the failure is swallowed by the inner catch block, and the response
is identical to the one produced when the send succeeds. -/
theorem email_failure_hidden (body : ContactBody)
    (h : contactSchema_safeParse body ≠ none) :
    POST body EmailOutcome.failed = { status := 200, success := true } ∧
    POST body EmailOutcome.failed = POST body EmailOutcome.sent := by
  cases hp : contactSchema_safeParse body with
  | none => exact absurd hp h
  | some d => simp [POST, hp]

/-- Witness for the email-failure theorem at a concrete valid body. -/
theorem email_failure_hidden_witness :
    POST ⟨some (JValue.jstr "Tim Lee"), some (JValue.jstr "tim@example.com"),
          some (JValue.jstr "Hello from the site!")⟩ EmailOutcome.failed =
      { status := 200, success := true } ∧
    POST ⟨some (JValue.jstr "Tim Lee"), some (JValue.jstr "tim@example.com"),
          some (JValue.jstr "Hello from the site!")⟩ EmailOutcome.failed =
      POST ⟨some (JValue.jstr "Tim Lee"), some (JValue.jstr "tim@example.com"),
            some (JValue.jstr "Hello from the site!")⟩ EmailOutcome.sent :=
  email_failure_hidden
    ⟨some (JValue.jstr "Tim Lee"), some (JValue.jstr "tim@example.com"),
     some (JValue.jstr "Hello from the site!")⟩ (by decide)

end ContactApi
